import Mathlib

/-!
Verification of the paletti color-palette extraction pipeline.

The development shallowly embeds the two near-duplicate implementations of
the repository, `paletti.py` (cv2-based) and `paletti/paletti.py`
(PIL-based), over exact rational arithmetic (`ℚ` standing for the floating
point reals of the source) and over `List`-based models of numpy arrays.
External library calls (numpy histogram, PIL thumbnail, sklearn KMeans) are
embedded according to their documented behaviour at the versions the source
uses; the `utils` module of the second implementation is absent from the
sources and the definitions that stand for it are modelled from the
specification, as marked in their doc comments.
-/

namespace Paletti

/-! ### Python string helpers: hex digits, int(s, 16), slices, ranges -/

/-- Value of one hexadecimal digit, as accepted by Python `int(s, 16)`
(both lower and upper case). Returns `none` on a non-digit. -/
def hexVal (ch : Char) : Option Nat :=
  if 48 ≤ ch.toNat ∧ ch.toNat ≤ 57 then some (ch.toNat - 48)
  else if 97 ≤ ch.toNat ∧ ch.toNat ≤ 102 then some (ch.toNat - 87)
  else if 65 ≤ ch.toNat ∧ ch.toNat ≤ 70 then some (ch.toNat - 55)
  else none

/-- Python `int(s, 16)` on a string of bare hex digits: fails on the empty
string or on any non-digit character. -/
def parseHexNat (l : List Char) : Option Nat :=
  match l with
  | [] => none
  | _ => List.foldlM (fun acc ch => (hexVal ch).map (fun v => 16 * acc + v)) 0 l

/-- Python `int(s, 16)` with an optional leading sign (surrounding
whitespace and underscore separators, which no caller here can produce in a
meaningful way, are not modelled). -/
def pyIntHex (l : List Char) : Option Int :=
  match l with
  | [] => none
  | ch :: rest =>
    if ch = '+' then (parseHexNat rest).map (fun n => (n : Int))
    else if ch = '-' then (parseHexNat rest).map (fun n => -(n : Int))
    else (parseHexNat (ch :: rest)).map (fun n => (n : Int))

/-- Python slice `s[a:b]` for `0 ≤ a ≤ b` (clamping, never failing). -/
def pySlice (l : List Char) (a b : Nat) : List Char := (l.drop a).take (b - a)

/-- Python `range(start, stop, step)` for a positive `step`. -/
def pyRange (start stop step : Nat) : List Nat :=
  (List.range ((stop - start + step - 1) / step)).map (fun i => start + i * step)

/-- Python `'%02x' % n`: lower-case hex digits of `n`, left-padded with `'0'`
to at least two characters. `Nat.toDigits 16` produces exactly the lower-case
hex digit string of Python's `'%x'`. -/
def fmt02x (n : Nat) : List Char :=
  let ds := Nat.toDigits 16 n
  List.replicate (2 - ds.length) '0' ++ ds

/-! ### hex2rgb / rgb2hex (paletti.py lines 99-106) -/

/-- `rgb2hex(rgb)`: `'#%02x%02x%02x' % rgb`. -/
def rgb2hex (c : Nat × Nat × Nat) : String :=
  ⟨'#' :: (fmt02x c.1 ++ fmt02x c.2.1 ++ fmt02x c.2.2)⟩

/-- Body of `hex2rgb` after the `lstrip('#')`: `lv = len(value)`, then
`[int(value[i:i + lv // 3], 16) for i in range(0, lv, lv // 3)]`.
Python raises (`none` here) when the stripped length is below 3 (zero step
in `range`) or a slice is not a hex numeral. -/
def hex2rgbAux (value : List Char) : Option (List Int) :=
  if value.length / 3 = 0 then none
  else (pyRange 0 value.length (value.length / 3)).mapM
    (fun i => pyIntHex (pySlice value i (i + value.length / 3)))

/-- `hex2rgb(hexcolor)`: strips leading `'#'` characters, then parses the
string in `len // 3`-character slices. -/
def hex2rgb (s : String) : Option (List Int) :=
  hex2rgbAux (s.data.dropWhile (fun ch => ch == '#'))

/-! ### get_palette dispatch (paletti.py lines 118-126) -/

/-- The strategy call selected by `get_palette`; records the strategy and the
arguments it is invoked with (`pictaculous_palette` takes no `k`). -/
inductive PaletteCall where
  | kmeans (fname : String) (k : Nat)
  | colorific (fname : String) (k : Nat)
  | pil (fname : String) (k : Nat)
  | pictaculous (fname : String)
deriving DecidableEq

/-- `get_palette(fname, k, method)`: the if/elif dispatch of both
implementations; a method matching no branch falls off the end of the
function, which in Python returns `None`. -/
def get_palette (fname : String) (k : Nat) (method : String) : Option PaletteCall :=
  if method = "k-means" then some (.kmeans fname k)
  else if method = "colorific" then some (.colorific fname k)
  else if method = "pil" then some (.pil fname k)
  else if method = "pictaculous" then some (.pictaculous fname)
  else none

/-! ### complementary_color (paletti.py lines 109-115) -/

/-- Python exceptions reachable from `complementary_color`. -/
inductive PyErr where
  | valueError
  | attributeError
deriving DecidableEq

/-- Truth of "this call raised": `complementary_color` can only be observed
through whether it raised or returned. -/
def isPyError {α : Type} : Except PyErr α → Bool :=
  fun r => match r with
  | .error _ => true
  | .ok _ => false

/-- Python `'%X' % v`: upper-case hex, with a minus sign for negative `v`. -/
def fmtX (v : Int) : List Char :=
  if v < 0 then '-' :: (Nat.toDigits 16 v.natAbs).map Char.toUpper
  else (Nat.toDigits 16 v.toNat).map Char.toUpper

/-- `complementary_color(incolor)`: strips a leading `'#'`, slices the first
six characters into three channel strings, formats `'02%X' % (255 - int(a, 16))`
for each, and finally evaluates `comp.join()` — an attribute lookup `join` on
a Python `list`, which does not exist and raises `AttributeError`. -/
def complementary_color (incolor : String) : Except PyErr String :=
  let t := if incolor.startsWith "#" then incolor.drop 1 else incolor
  let l := t.data
  let rgb := [pySlice l 0 2, pySlice l 2 4, pySlice l 4 6]
  (rgb.mapM (fun a =>
      match pyIntHex a with
      | none => Except.error PyErr.valueError
      | some v => Except.ok ('0' :: '2' :: fmtX (255 - v)))).bind
    (fun _comp => Except.error PyErr.attributeError)

/-! ### Image preparation dimensions (C6) -/

/-- `RSIZE = 600`, the `max_dimension` of `paletti/paletti.py`. -/
def RSIZE : Nat := 600

/-- PIL `Image.thumbnail((mx, my))` on a `W × H` image, per its documented
contract: an image already within bounds is untouched; otherwise it is
scaled down by the largest factor fitting both bounds, preserving aspect
ratio, with at least one pixel per side. -/
def thumbnailDims (W H mx my : Nat) : Nat × Nat :=
  if W ≤ mx ∧ H ≤ my then (W, H)
  else
    let s : ℚ := min ((mx : ℚ) / W) ((my : ℚ) / H)
    (max 1 (Int.toNat ⌊(W : ℚ) * s⌋), max 1 (Int.toNat ⌊(H : ℚ) * s⌋))

/-- Pixel dimensions reaching clustering in `paletti/paletti.py`
`kmeans_palette` (line 23): `origimg.thumbnail((RSIZE, RSIZE), ANTIALIAS)`. -/
def prepDims2 (W H : Nat) : Nat × Nat := thumbnailDims W H RSIZE RSIZE

/-- Pixel dimensions reaching clustering in `paletti.py` `kmeans_palette`
(lines 20-25): the cv2 path reads, converts and reshapes the image with no
resizing of any kind. -/
def prepDims1 (W H : Nat) : Nat × Nat := (W, H)

/-- Pixel dimensions reaching palette extraction in `paletti.py`
`pil_palette` (lines 60-62): `image.resize((150, 150))`, a fixed square that
does not preserve aspect ratio. -/
def pilResizeDims (_W _H : Nat) : Nat × Nat := (150, 150)

/-! ### numpy histogram and the percent computation (C1) -/

/-- `np.min` over a list of naturals (numpy rejects an empty array). -/
def listMin : List Nat → Nat
  | [] => 0
  | [a] => a
  | a :: b :: rest => Nat.min a (listMin (b :: rest))

/-- `np.max` over a list of naturals. -/
def listMax : List Nat → Nat
  | [] => 0
  | [a] => a
  | a :: b :: rest => Nat.max a (listMax (b :: rest))

/-- Lower edge of numpy `histogram(data, bins)`'s range: `data.min()`,
widened by `0.5` when all data coincide (numpy's degenerate-range rule). -/
def histLo (data : List Nat) : ℚ :=
  if listMin data = listMax data then (listMin data : ℚ) - 1/2 else (listMin data : ℚ)

/-- Upper edge of numpy `histogram(data, bins)`'s range. -/
def histHi (data : List Nat) : ℚ :=
  if listMin data = listMax data then (listMax data : ℚ) + 1/2 else (listMax data : ℚ)

/-- Width of each of the `bins` equal-width bins. -/
def binWidth (data : List Nat) (bins : Nat) : ℚ :=
  (histHi data - histLo data) / bins

/-- Membership of a value in bin `j` out of `bins` equal-width bins over
`[lo, hi]`: bins are half-open on the right except the last, which is
closed, exactly as numpy assigns values to bins. -/
def inBin (lo hi : ℚ) (bins j : Nat) (x : ℚ) : Bool :=
  decide (lo + j * ((hi - lo) / bins) ≤ x) &&
    (if j + 1 = bins then decide (x ≤ hi)
     else decide (x < lo + (j + 1) * ((hi - lo) / bins)))

/-- Number of data points landing in bin `j`. -/
def histCount (data : List Nat) (bins j : Nat) : Nat :=
  data.countP (fun x : Nat => inBin (histLo data) (histHi data) bins j ((x : Nat) : ℚ))

/-- numpy `histogram(data, bins, normed=True)`: the per-bin density
`count / (n * width)` (equal-width bins). -/
def histDensity (data : List Nat) (bins : Nat) : List ℚ :=
  (List.range bins).map
    (fun j => (histCount data bins j : ℚ) / (data.length * binWidth data bins))

/-- The percent computation of `kmeans_palette` (paletti.py lines 44-45,
paletti/paletti.py lines 43-44):
`percent, _ = np.histogram(labels, bins=len(maincolors), normed=True)`
followed by `percent /= float(percent.sum())`. -/
def percentOf (labels : List Nat) (bins : Nat) : List ℚ :=
  (histDensity labels bins).map (fun q => q / (histDensity labels bins).sum)

/-- `np.squeeze`: drops every axis of extent 1 from a shape. -/
def squeeze (shape : List Nat) : List Nat := shape.filter (fun d => d != 1)

/-- Python `len` of a numpy array: the extent of its leading axis. -/
def npLen (shape : List Nat) : Nat := shape.headD 0

/-- `len(maincolors)` at the histogram call of `paletti.py` (line 44):
`maincolors` was just reshaped to `(k, 1, 3)` and rescaled (shape
preserved by `cv2.cvtColor` and the arithmetic), so its leading axis is
`k`. -/
def bins1 (k : Nat) : Nat := npLen [k, 1, 3]

/-- `len(maincolors)` at the histogram call of `paletti/paletti.py`
(line 43): `cluster_centers_` of shape `(k, 3)` is `expand_dims`ed to
`(1, k, 3)`, converted by `lab2rgb` — modelled from the spec as
shape-preserving (§4.1: converts to a "same-shape array"), the `utils`
module being absent from the sources — and then `.squeeze()`d, which
leaves `(k, 3)` for `k ≥ 2` but collapses to `(3,)` when `k = 1`. -/
def bins2 (k : Nat) : Nat := npLen (squeeze [1, k, 3])

/-- The proportions the claim specifies: the frequency of each label value
in `[0, k)` among the assignments, normalized once by the sample count. -/
def freqVec (k : Nat) (labels : List Nat) : List ℚ :=
  (List.range k).map (fun j => (labels.count j : ℚ) / labels.length)

/-! ### Palette entry counts (C3) -/

/-- Shape of the colors array in the `Palette` returned by `paletti.py`'s
`kmeans_palette`: `cluster_centers_` of shape `(k, 3)` is reshaped to
`(k, 1, 3)` (line 31), rescaled and converted by `cv2.cvtColor`
(shape-preserving), and `.squeeze()`d at the return (line 47). -/
def paletteColorsShape1 (k : Nat) : List Nat := squeeze [k, 1, 3]

/-- Shape of the colors array in the `Palette` returned by
`paletti/paletti.py`'s `kmeans_palette`: `cluster_centers_` of shape
`(k, 3)` is `expand_dims`ed to `(1, k, 3)` (line 32), converted by
`lab2rgb` — modelled from the spec as shape-preserving (§4.1) —
`.squeeze()`d (line 33), and `.squeeze()`d again at the return (line 45). -/
def paletteColorsShape2 (k : Nat) : List Nat := squeeze (squeeze [1, k, 3])

/-- Number of color entries the returned palette presents: the extent of
the leading axis of its colors array, which is what Python `len()` and
iteration over `palette.colors` observe. -/
def numEntries1 (k : Nat) : Nat := npLen (paletteColorsShape1 k)

/-- Number of color entries of the palette of `paletti/paletti.py`. -/
def numEntries2 (k : Nat) : Nat := npLen (paletteColorsShape2 k)

/-! ### The clustering step: sklearn KMeans modelled as seeded Lloyd
iteration (C3, C4, C5) -/

/-- A color sample or centroid: a 3-vector over exact rationals. -/
structure Vec3 where
  x : ℚ
  y : ℚ
  z : ℚ
deriving DecidableEq

/-- Squared Euclidean distance, the metric KMeans minimizes. -/
def dist2 (p q : Vec3) : ℚ :=
  (p.x - q.x) ^ 2 + (p.y - q.y) ^ 2 + (p.z - q.z) ^ 2

/-- Index of the first minimal element (numpy argmin tie-breaking). -/
def argminGo : Nat → Nat → ℚ → List ℚ → Nat
  | _, bi, _, [] => bi
  | i, bi, bd, d :: rest =>
    if d < bd then argminGo (i + 1) i d rest else argminGo (i + 1) bi bd rest

/-- `argmin` over a list of distances (0 on the empty list). -/
def argmin : List ℚ → Nat
  | [] => 0
  | d :: rest => argminGo 1 0 d rest

/-- Index of the first maximal element (numpy argmax tie-breaking). -/
def argmaxGo : Nat → Nat → ℚ → List ℚ → Nat
  | _, bi, _, [] => bi
  | i, bi, bd, d :: rest =>
    if bd < d then argmaxGo (i + 1) i d rest else argmaxGo (i + 1) bi bd rest

/-- `argmax` over a list of distances (0 on the empty list). -/
def argmax : List ℚ → Nat
  | [] => 0
  | d :: rest => argmaxGo 1 0 d rest

/-- Label of the nearest centroid for one sample. -/
def nearest (cs : List Vec3) (p : Vec3) : Nat :=
  argmin (cs.map (fun c => dist2 p c))

/-- Componentwise sum of a list of vectors. -/
def vsum (l : List Vec3) : Vec3 :=
  l.foldr (fun p acc => ⟨p.x + acc.x, p.y + acc.y, p.z + acc.z⟩) ⟨0, 0, 0⟩

/-- Mean of a list of vectors (the new centroid of a cluster). -/
def centroidOf (l : List Vec3) : Vec3 :=
  ⟨(vsum l).x / l.length, (vsum l).y / l.length, (vsum l).z / l.length⟩

/-- The samples currently assigned to cluster `j`. -/
def clusterMembers (samples cs : List Vec3) (j : Nat) : List Vec3 :=
  samples.filter (fun p => nearest cs p == j)

/-- One Lloyd update: recompute each centroid as the mean of its assigned
samples; an empty cluster is reseeded to the sample farthest from its
current centroid (the library's internal empty-cluster handling; never an
error). -/
def lloydStep (samples cs : List Vec3) : List Vec3 :=
  (List.range cs.length).map (fun j =>
    let members := clusterMembers samples cs j
    if members.isEmpty then
      samples.getD (argmax (samples.map (fun p => dist2 p (cs.getD j ⟨0, 0, 0⟩)))) ⟨0, 0, 0⟩
    else centroidOf members)

/-- Lloyd iteration until the centroids stabilize or the iteration cap
(sklearn `max_iter`, default 300) runs out. -/
def lloydIter : Nat → List Vec3 → List Vec3 → List Vec3
  | 0, _, cs => cs
  | fuel + 1, samples, cs =>
    let cs' := lloydStep samples cs
    if cs' = cs then cs else lloydIter fuel samples cs'

/-- Abstract model of the library's global RNG (numpy's, as used by
`KMeans` when no `random_state` is passed): drawing a value advances the
process-wide state. -/
def rngDraw (s : Nat) : Nat × Nat := (s, s + 1)

/-- Initial centroid indices derived from one RNG draw `r`: `k` positions
into the sample list starting at `r mod n`. -/
def initIndices (r k n : Nat) : List Nat :=
  (List.range k).map (fun t => (r + t) % n)

/-- Initial centroids chosen by the seeded initialization. -/
def initCentroids (r : Nat) (samples : List Vec3) (k : Nat) : List Vec3 :=
  (initIndices r k samples.length).map (fun i => samples.getD i ⟨0, 0, 0⟩)

/-- The error the clustering step can raise. -/
inductive KMeansError where
  | invalidK
deriving DecidableEq

/-- `KMeans(n_clusters=k).fit(samples)` at the version the source pins:
raises when `n_samples < n_clusters` (its explicit validation) and crashes
in centroid initialization for `k ≤ 0`; both failures are the spec's
`InvalidK`. Otherwise Lloyd iteration runs to convergence and always
returns exactly `k` centroids (empty clusters are reseeded internally). -/
def kmeansFit (samples : List Vec3) (k r : Nat) :
    Except KMeansError (List Vec3) :=
  if k = 0 ∨ samples.length < k then Except.error KMeansError.invalidK
  else Except.ok (lloydIter 300 samples (initCentroids r samples k))

/-- Number of distinct sample values (distinct image pixels). -/
def numDistinct (l : List Vec3) : Nat := l.dedup.length

/-- One call of the clustering stage of `kmeans_palette` on prepared
samples: `KMeans(n_clusters=k, n_jobs=-1)` is constructed with no
`random_state` (paletti.py line 28, paletti/paletti.py line 29), so the
initialization draws from the global RNG, advancing it. -/
def runOnce (samples : List Vec3) (k s : Nat) :
    Except KMeansError (List Vec3) × Nat :=
  ((kmeansFit samples k (rngDraw s).1), (rngDraw s).2)

/-- Two successive identical calls in one process: the second starts from
the RNG state the first left behind. -/
def runTwice (samples : List Vec3) (k s : Nat) :
    Except KMeansError (List Vec3) × Except KMeansError (List Vec3) :=
  ((runOnce samples k s).1, (runOnce samples k (runOnce samples k s).2).1)

/-- Concrete prepared samples for the reproducibility counterexample: four
collinear colors with two distinct locally-optimal 2-clusterings. -/
def cexSamples : List Vec3 :=
  [⟨0, 0, 0⟩, ⟨6, 0, 0⟩, ⟨9, 0, 0⟩, ⟨15, 0, 0⟩]

/-! ### Image preparation: decoding, channels, flattening (C7) -/

/-- Errors of the preparation stage. -/
inductive PrepError where
  | assertionError
  | shapeMismatch
deriving DecidableEq

/-- numpy shape `(h, w, d)` of a decoded image held as nested lists
(height × width × channels), for rectangular data. -/
def shapeOf (img : List (List (List ℚ))) : Nat × Nat × Nat :=
  (img.length, (img.headD []).length, ((img.headD []).headD []).length)

/-- `cv2.imread(path)` with its default `IMREAD_COLOR` flag: any
successfully decoded color image is returned with exactly 3 channels; a
source alpha channel is dropped. -/
def cv2Read (img : List (List (List ℚ))) : List (List (List ℚ)) :=
  img.map (fun row => row.map (fun px => px.take 3))

/-- Preparation of `paletti.py` `kmeans_palette` (lines 20-25): decode with
`cv2.imread` (3 channels, alpha dropped), color-convert pixel-wise (shape-
and position-preserving; the numeric conversion is studied separately),
read `(w, h, d) = img.shape`, `assert d == 3`, and reshape to `(w*h, d)` —
row-major flattening of the rows. -/
def prepare1 (src : List (List (List ℚ))) : Except PrepError (List (List ℚ)) :=
  if (shapeOf (cv2Read src)).2.2 = 3 then Except.ok (cv2Read src).join
  else Except.error PrepError.assertionError

/-- Modelled from the spec: `utils.rgb2lab` (the `utils` module is absent
from the sources) — per §4.1 a pixel-wise, shape-preserving conversion that
fails with `ShapeMismatch` when the last dimension is not 3. Only its shape
behaviour matters here; the numeric conversion is the C2 development. -/
def rgb2labShape (src : List (List (List ℚ))) :
    Except PrepError (List (List (List ℚ))) :=
  if (shapeOf src).2.2 = 3 then Except.ok src
  else Except.error PrepError.shapeMismatch

/-- Preparation of `paletti/paletti.py` `kmeans_palette` (lines 22-27):
`Image.open` keeps the source mode (an RGBA image stays 4-channel — there
is no `convert('RGB')`), the thumbnail only changes `w` and `h`, `rgb2lab`
is applied, then `(w, h, d) = img.shape`, `assert d == 3`, and the
row-major reshape to `(w*h, d)`. -/
def prepare2 (src : List (List (List ℚ))) : Except PrepError (List (List ℚ)) :=
  (rgb2labShape src).bind (fun img =>
    if (shapeOf img).2.2 = 3 then Except.ok img.join
    else Except.error PrepError.assertionError)

/-! ### Color-space conversion (C2)

`paletti/paletti.py` converts with `utils.rgb2lab` / `utils.lab2rgb`; the
`utils` module is absent from the sources, so the conversion pair is
modelled from the spec (§4.1): a deterministic pixel-wise CIE-Lab-style
conversion — per-channel gamma linearization, the linear sRGB→XYZ map with
D65 white-point normalization, per-channel Lab compand, and the L/a/b
affine combination — whose per-channel nonlinearities are abstracted as an
arbitrary inverse pair of functions (§4.1 requires the conversion to be
invertible up to rounding), and whose inverse clamps to the display
range. -/

/-- sRGB→XYZ matrix (D65), row 0. -/
def m00 : ℚ := 4124 / 10000
def m01 : ℚ := 3576 / 10000
def m02 : ℚ := 1805 / 10000

/-- sRGB→XYZ matrix (D65), row 1. -/
def m10 : ℚ := 2126 / 10000
def m11 : ℚ := 7152 / 10000
def m12 : ℚ := 722 / 10000

/-- sRGB→XYZ matrix (D65), row 2. -/
def m20 : ℚ := 193 / 10000
def m21 : ℚ := 1192 / 10000
def m22 : ℚ := 9505 / 10000

/-- Determinant of the sRGB→XYZ matrix. -/
def det3 : ℚ :=
  m00 * (m11 * m22 - m12 * m21) - m01 * (m10 * m22 - m12 * m20)
    + m02 * (m10 * m21 - m11 * m20)

/-- Exact inverse matrix (adjugate over determinant), row 0. -/
def i00 : ℚ := (m11 * m22 - m12 * m21) / det3
def i01 : ℚ := -(m01 * m22 - m02 * m21) / det3
def i02 : ℚ := (m01 * m12 - m02 * m11) / det3

/-- Exact inverse matrix, row 1. -/
def i10 : ℚ := -(m10 * m22 - m12 * m20) / det3
def i11 : ℚ := (m00 * m22 - m02 * m20) / det3
def i12 : ℚ := -(m00 * m12 - m02 * m10) / det3

/-- Exact inverse matrix, row 2. -/
def i20 : ℚ := (m10 * m21 - m11 * m20) / det3
def i21 : ℚ := -(m00 * m21 - m01 * m20) / det3
def i22 : ℚ := (m00 * m11 - m01 * m10) / det3

/-- D65 white point: the image of display white `(1, 1, 1)`. -/
def Xn : ℚ := m00 + m01 + m02
def Yn : ℚ := m10 + m11 + m12
def Zn : ℚ := m20 + m21 + m22

/-- Apply one per-channel function to a color triple (pixel-wise and
channel-wise, as §4.1 requires). -/
def mapTriple (f : ℚ → ℚ) (v : ℚ × ℚ × ℚ) : ℚ × ℚ × ℚ :=
  (f v.1, f v.2.1, f v.2.2)

/-- Linear RGB → XYZ. -/
def toXYZ (v : ℚ × ℚ × ℚ) : ℚ × ℚ × ℚ :=
  (m00 * v.1 + m01 * v.2.1 + m02 * v.2.2,
   m10 * v.1 + m11 * v.2.1 + m12 * v.2.2,
   m20 * v.1 + m21 * v.2.1 + m22 * v.2.2)

/-- XYZ → linear RGB (the exact inverse map). -/
def fromXYZ (w : ℚ × ℚ × ℚ) : ℚ × ℚ × ℚ :=
  (i00 * w.1 + i01 * w.2.1 + i02 * w.2.2,
   i10 * w.1 + i11 * w.2.1 + i12 * w.2.2,
   i20 * w.1 + i21 * w.2.1 + i22 * w.2.2)

/-- White-point normalization `X/Xn, Y/Yn, Z/Zn`. -/
def whiteDiv (w : ℚ × ℚ × ℚ) : ℚ × ℚ × ℚ := (w.1 / Xn, w.2.1 / Yn, w.2.2 / Zn)

/-- Undo the white-point normalization. -/
def whiteMul (w : ℚ × ℚ × ℚ) : ℚ × ℚ × ℚ := (Xn * w.1, Yn * w.2.1, Zn * w.2.2)

/-- The L/a/b affine combination of the companded coordinates
`(fx, fy, fz)`. -/
def labAffine (w : ℚ × ℚ × ℚ) : ℚ × ℚ × ℚ :=
  (116 * w.2.1 - 16, 500 * (w.1 - w.2.1), 200 * (w.2.1 - w.2.2))

/-- Recover `(fx, fy, fz)` from `(L, a, b)`. -/
def labAffineInv (c : ℚ × ℚ × ℚ) : ℚ × ℚ × ℚ :=
  ((c.1 + 16) / 116 + c.2.1 / 500, (c.1 + 16) / 116,
   (c.1 + 16) / 116 - c.2.2 / 200)

/-- Clamp to the valid display range `[0, 1]` (§4.1: `toDisplay` clamps). -/
def clamp01 (t : ℚ) : ℚ := max 0 (min 1 t)

/-- Modelled from the spec: `utils.rgb2lab` (`toPerceptual`), parametrized
by the gamma linearization `g` and the Lab compand `f`. -/
def rgb2lab (g f : ℚ → ℚ) (c : ℚ × ℚ × ℚ) : ℚ × ℚ × ℚ :=
  labAffine (mapTriple f (whiteDiv (toXYZ (mapTriple g c))))

/-- Modelled from the spec: `utils.lab2rgb` (`toDisplay`), parametrized by
the inverse compand `finv` and the inverse gamma `ginv`, clamped to the
display range. -/
def lab2rgb (ginv finv : ℚ → ℚ) (c : ℚ × ℚ × ℚ) : ℚ × ℚ × ℚ :=
  mapTriple clamp01 (mapTriple ginv (fromXYZ (whiteMul (mapTriple finv (labAffineInv c)))))

/-! ## Theorems -/

/-! ### Helper lemmas on lists and hex formatting -/

/-- `listMin` is a lower bound of the list's members. -/
theorem listMin_le {l : List Nat} {x : Nat} (hx : x ∈ l) : listMin l ≤ x := by
  induction l with
  | nil => cases hx
  | cons a t ih =>
    cases t with
    | nil =>
      rw [List.mem_singleton] at hx
      rw [hx, listMin]
    | cons b rest =>
      rw [listMin]
      rcases List.mem_cons.mp hx with h | h
      · exact le_trans (Nat.min_le_left _ _) (le_of_eq h.symm)
      · exact le_trans (Nat.min_le_right _ _) (ih h)

/-- `listMax` is an upper bound of the list's members. -/
theorem listMax_ge {l : List Nat} {x : Nat} (hx : x ∈ l) : x ≤ listMax l := by
  induction l with
  | nil => cases hx
  | cons a t ih =>
    cases t with
    | nil =>
      rw [List.mem_singleton] at hx
      rw [hx, listMax]
    | cons b rest =>
      rw [listMax]
      rcases List.mem_cons.mp hx with h | h
      · exact le_trans (le_of_eq h) (Nat.le_max_left _ _)
      · exact le_trans (ih h) (Nat.le_max_right _ _)

/-- `listMax` is at most any upper bound of the members. -/
theorem listMax_le {l : List Nat} {b : Nat} (h : ∀ x ∈ l, x ≤ b) : listMax l ≤ b := by
  induction l with
  | nil => exact Nat.zero_le b
  | cons a t ih =>
    cases t with
    | nil => rw [listMax]; exact h a (List.mem_singleton.mpr rfl)
    | cons c rest =>
      rw [listMax]
      exact Nat.max_le.mpr ⟨h a (List.mem_cons_self a _),
        ih (fun x hx => h x (List.mem_cons_of_mem a hx))⟩

/-- `countP` only depends on the predicate's values on the list. -/
theorem countP_congr_mem {α : Type} (l : List α) (p q : α → Bool)
    (h : ∀ x ∈ l, p x = q x) : l.countP p = l.countP q := by
  induction l with
  | nil => rfl
  | cons a t ih =>
    rw [List.countP_cons, List.countP_cons, h a (List.mem_cons_self a t),
      ih (fun x hx => h x (List.mem_cons_of_mem a hx))]

/-- `map` only depends on the function's values on the list. -/
theorem map_congr_mem {α β : Type} (l : List α) (f g : α → β)
    (h : ∀ a ∈ l, f a = g a) : l.map f = l.map g := by
  induction l with
  | nil => rfl
  | cons a t ih =>
    rw [List.map_cons, List.map_cons, h a (List.mem_cons_self a t),
      ih (fun x hx => h x (List.mem_cons_of_mem a hx))]

/-- Sum of a mapped `List.range` as a `Finset.range` sum. -/
theorem sum_map_range (f : Nat → ℚ) (n : Nat) :
    ((List.range n).map f).sum = ∑ i in Finset.range n, f i := by
  induction n with
  | zero => simp
  | succ m ih =>
    rw [List.range_succ, Finset.sum_range_succ, List.map_append, List.sum_append, ih]
    simp

/-- Counting each value below `k` once accounts for every element of a list
of values below `k`. -/
theorem sum_count_eq_length (k : Nat) (labels : List Nat)
    (h : ∀ l ∈ labels, l < k) :
    ∑ j in Finset.range k, (labels.count j : ℚ) = labels.length := by
  induction labels with
  | nil => simp
  | cons a t ih =>
    have ha : a < k := h a (List.mem_cons_self a t)
    have ih' := ih (fun l hl => h l (List.mem_cons_of_mem a hl))
    have step : ∀ j : Nat, ((a :: t).count j : ℚ)
        = (t.count j : ℚ) + if j = a then 1 else 0 := by
      intro j
      rw [List.count_cons]
      push_cast
      congr 1
      by_cases hja : j = a
      · simp [hja]
      · have hja' : ¬ (a = j) := fun hc => hja hc.symm
        simp [hja, hja']
    rw [Finset.sum_congr rfl (fun j _ => step j), Finset.sum_add_distrib, ih',
      Finset.sum_ite_eq' (Finset.range k) a (fun _ => (1 : ℚ)),
      if_pos (Finset.mem_range.mpr ha)]
    simp [add_comm]

/-- Characterization of numpy's bin assignment over the range `[0, k-1]`
with `k` bins: a natural number `m < k` lands in bin `j` exactly when
`m = j`. -/
theorem inBin_nat_iff (k j m : Nat) (hk : 2 ≤ k) (hj : j < k) (hm : m < k) :
    (inBin 0 ((k : ℚ) - 1) k j (m : ℚ) = true) ↔ m = j := by
  have hkn : 0 < k := by omega
  have hK : (0 : ℚ) < (k : ℚ) := by exact_mod_cast hkn
  have hK2 : (2 : ℚ) ≤ (k : ℚ) := by exact_mod_cast hk
  have hJ : (j : ℚ) < (k : ℚ) := by exact_mod_cast hj
  have hM : (m : ℚ) < (k : ℚ) := by exact_mod_cast hm
  have hJ0 : (0 : ℚ) ≤ (j : ℚ) := Nat.cast_nonneg j
  have hM0 : (0 : ℚ) ≤ (m : ℚ) := Nat.cast_nonneg m
  rw [inBin, Bool.and_eq_true, decide_eq_true_eq]
  simp only [zero_add, sub_zero]
  have lower : ((j : ℚ) * (((k : ℚ) - 1) / (k : ℚ)) ≤ (m : ℚ))
      ↔ (j : ℚ) * ((k : ℚ) - 1) ≤ (m : ℚ) * (k : ℚ) := by
    rw [← mul_div_assoc, div_le_iff hK]
  by_cases hlast : j + 1 = k
  · rw [if_pos hlast, decide_eq_true_eq, lower]
    have hJK : (j : ℚ) = (k : ℚ) - 1 := by
      have : ((j : ℚ) + 1) = (k : ℚ) := by exact_mod_cast hlast
      linarith
    constructor
    · rintro ⟨hlo, hhi⟩
      rw [hJK] at hlo
      by_contra hne
      have hmj : m + 1 ≤ j := by omega
      have hmj' : (m : ℚ) + 1 ≤ (j : ℚ) := by exact_mod_cast hmj
      rw [hJK] at hmj'
      nlinarith
    · rintro rfl
      rw [hJK]
      constructor
      · nlinarith
      · linarith [hJK ▸ hM.le, hJK]
  · have hjk : j + 1 < k := by omega
    have hjk' : (j : ℚ) + 1 < (k : ℚ) := by exact_mod_cast hjk
    rw [if_neg hlast, decide_eq_true_eq, lower]
    have upper : ((m : ℚ) < ((j : ℚ) + 1) * (((k : ℚ) - 1) / (k : ℚ)))
        ↔ (m : ℚ) * (k : ℚ) < ((j : ℚ) + 1) * ((k : ℚ) - 1) := by
      rw [← mul_div_assoc, lt_div_iff hK]
    rw [upper]
    constructor
    · rintro ⟨hlo, hhi⟩
      by_contra hne
      rcases Nat.lt_or_ge m j with hmj | hmj
      · have hmj' : (m : ℚ) + 1 ≤ (j : ℚ) := by exact_mod_cast hmj
        nlinarith
      · have hmj2 : j + 1 ≤ m := by omega
        have hmj' : (j : ℚ) + 1 ≤ (m : ℚ) := by exact_mod_cast hmj2
        nlinarith
    · rintro rfl
      constructor
      · nlinarith
      · nlinarith

/-- Boolean form of `inBin_nat_iff`. -/
theorem inBin_nat_eq_beq (k j m : Nat) (hk : 2 ≤ k) (hj : j < k) (hm : m < k) :
    inBin 0 ((k : ℚ) - 1) k j (m : ℚ) = (m == j) := by
  by_cases h : m = j
  · subst h
    rw [beq_self_eq_true]
    exact (inBin_nat_iff k m m hk hj hj).mpr rfl
  · rw [beq_eq_false_iff_ne.mpr h]
    cases hq : inBin 0 ((k : ℚ) - 1) k j (m : ℚ) with
    | false => rfl
    | true => exact absurd ((inBin_nat_iff k j m hk hj hm).mp hq) h

/-- For assignments covering all of `[0, k)`, bin `j` of the numpy histogram
counts exactly the occurrences of label `j`. -/
theorem histCount_eq_count (labels : List Nat) (k j : Nat)
    (hk : 0 < k) (hj : j < k) (hlt : ∀ l ∈ labels, l < k)
    (h0 : 0 ∈ labels) (hk1 : k - 1 ∈ labels) :
    histCount labels k j = labels.count j := by
  have hmin : listMin labels = 0 := Nat.le_zero.mp (listMin_le h0)
  rcases Nat.lt_or_ge k 2 with h2 | h2
  · have hk1' : k = 1 := by omega
    subst hk1'
    have hj0 : j = 0 := by omega
    subst hj0
    have hz : ∀ l ∈ labels, l = 0 := fun l hl => by have := hlt l hl; omega
    have hmax : listMax labels = 0 :=
      Nat.le_zero.mp (listMax_le (fun x hx => (hz x hx).le))
    have heq : listMin labels = listMax labels := by rw [hmin, hmax]
    rw [histCount, histLo, histHi, if_pos heq, if_pos heq, hmin, hmax]
    have hcount : labels.count 0 = labels.countP (fun x => x == 0) := rfl
    rw [hcount]
    apply countP_congr_mem
    intro x hx
    rw [hz x hx]
    norm_num [inBin]
  · have hmax : listMax labels = k - 1 :=
      le_antisymm (listMax_le (fun x hx => by have := hlt x hx; omega)) (listMax_ge hk1)
    have hne : ¬ (listMin labels = listMax labels) := by rw [hmin, hmax]; omega
    have hlo : histLo labels = 0 := by
      rw [histLo, if_neg hne, hmin]; norm_num
    have hhi : histHi labels = (k : ℚ) - 1 := by
      rw [histHi, if_neg hne, hmax]
      push_cast [Nat.cast_sub (by omega : 1 ≤ k)]
      ring
    rw [histCount, hlo, hhi,
      countP_congr_mem labels _ (fun m => m == j)
        (fun m hm => inBin_nat_eq_beq k j m h2 hj (hlt m hm))]
    rfl

/-- The bin width of the histogram over assignments covering `[0, k)` is
positive. -/
theorem binWidth_pos (labels : List Nat) (k : Nat)
    (hk : 0 < k) (hlt : ∀ l ∈ labels, l < k)
    (h0 : 0 ∈ labels) (hk1 : k - 1 ∈ labels) :
    0 < binWidth labels k := by
  have hmin : listMin labels = 0 := Nat.le_zero.mp (listMin_le h0)
  have hK : (0 : ℚ) < (k : ℚ) := by exact_mod_cast hk
  rcases Nat.lt_or_ge k 2 with h2 | h2
  · have hk1' : k = 1 := by omega
    subst hk1'
    have hz : ∀ l ∈ labels, l = 0 := fun l hl => by have := hlt l hl; omega
    have hmax : listMax labels = 0 :=
      Nat.le_zero.mp (listMax_le (fun x hx => (hz x hx).le))
    have heq : listMin labels = listMax labels := by rw [hmin, hmax]
    rw [binWidth, histLo, histHi, if_pos heq, if_pos heq, hmin, hmax]
    norm_num
  · have hmax : listMax labels = k - 1 :=
      le_antisymm (listMax_le (fun x hx => by have := hlt x hx; omega)) (listMax_ge hk1)
    have hne : ¬ (listMin labels = listMax labels) := by rw [hmin, hmax]; omega
    have hK2 : (2 : ℚ) ≤ (k : ℚ) := by exact_mod_cast h2
    rw [binWidth, histLo, histHi, if_neg hne, if_neg hne, hmin, hmax]
    have hcast : (((k - 1 : Nat)) : ℚ) = (k : ℚ) - 1 := by
      push_cast [Nat.cast_sub (by omega : 1 ≤ k)]
      ring
    rw [hcast]
    apply div_pos _ hK
    push_cast
    linarith

/-- Claim C1 amended: when the histogram is computed with `bins = k` — which
holds in `paletti.py` for every valid `k`, and in `paletti/paletti.py` for
`k ≥ 2` (for `k = 1` its squeeze collapses `maincolors` and `bins = 3`) —
and the assignments attain both label `0` and label `k - 1`, so that
numpy's data-dependent range spans exactly `[0, k-1]`, the density
histogram followed by the division by its own sum yields exactly the
frequency of each label value in `[0, k)` normalized once by the total
sample count: non-negative proportions summing to 1 (so within any
tolerance), the second normalization cancelling the density scaling rather
than dividing the frequencies twice. Intermediate label values may be
absent (their proportion is 0, per §4.4); but when the extreme labels are
not attained — e.g. the labels `[0, 0]` that fit-then-predict produces on
two identical pixels with `k = 2` — the bins shift away from the label
values and the correspondence fails. -/
theorem percent_single_normalized_freq (labels : List Nat) (k : Nat)
    (hk : 0 < k) (hlt : ∀ l ∈ labels, l < k)
    (h0 : 0 ∈ labels) (hk1 : k - 1 ∈ labels) :
    percentOf labels k = freqVec k labels ∧
      (percentOf labels k).sum = 1 ∧ ∀ q ∈ percentOf labels k, 0 ≤ q := by
  have hne : labels ≠ [] := List.ne_nil_of_mem h0
  have hn : 0 < labels.length := List.length_pos.mpr hne
  have hnq : ((labels.length : ℚ)) ≠ 0 := by
    have : (0 : ℚ) < (labels.length : ℚ) := by exact_mod_cast hn
    exact ne_of_gt this
  have hw : 0 < binWidth labels k := binWidth_pos labels k hk hlt h0 hk1
  have hwne : binWidth labels k ≠ 0 := ne_of_gt hw
  have hdens : histDensity labels k
      = (List.range k).map
          (fun j => (labels.count j : ℚ) / (labels.length * binWidth labels k)) := by
    rw [histDensity]
    apply map_congr_mem
    intro j hj
    rw [histCount_eq_count labels k j hk (List.mem_range.mp hj) hlt h0 hk1]
  have hsum : (histDensity labels k).sum = 1 / binWidth labels k := by
    rw [hdens, sum_map_range, ← Finset.sum_div, sum_count_eq_length k labels hlt]
    field_simp
  have hpercent : percentOf labels k = freqVec k labels := by
    rw [percentOf, hsum, hdens, List.map_map, freqVec]
    apply map_congr_mem
    intro j hj
    simp only [Function.comp]
    rw [one_div, div_eq_mul_inv, inv_inv, div_mul_eq_mul_div,
      mul_comm ((labels.length : ℚ)) (binWidth labels k),
      mul_comm ((labels.count j : ℚ)) (binWidth labels k)]
    exact mul_div_mul_left _ _ hwne
  have hsum1 : (freqVec k labels).sum = 1 := by
    rw [freqVec, sum_map_range, ← Finset.sum_div, sum_count_eq_length k labels hlt,
      div_self hnq]
  have hnn : ∀ q ∈ freqVec k labels, 0 ≤ q := by
    intro q hq
    rw [freqVec] at hq
    obtain ⟨j, _, rfl⟩ := List.mem_map.mp hq
    positivity
  exact ⟨hpercent, hpercent ▸ hsum1, hpercent ▸ hnn⟩

/-- Witness for C1's amended theorem: labels `[0, 2]` with `k = 3` — the
extreme labels are attained, label 1 has zero occurrences (proportion 0,
per §4.4). -/
theorem percent_single_normalized_freq_witness :
    percentOf [0, 2] 3 = freqVec 3 [0, 2] ∧
      (percentOf [0, 2] 3).sum = 1 ∧ ∀ q ∈ percentOf [0, 2] 3, 0 ≤ q :=
  percent_single_normalized_freq [0, 2] 3 (by decide)
    (by decide) (by decide) (by decide)

/-- Evaluation of case (a) of the C1 counterexample: one sample labelled 0,
`k = 1`, `bins = 3` after the squeeze. -/
theorem percent_k1_case :
    percentOf [0] (bins2 1) = [0, 1, 0] ∧
      percentOf [0] (bins2 1) ≠ freqVec 1 [0] := by
  have hb : bins2 1 = 3 := rfl
  have hlo : histLo [0] = -(1/2) := by norm_num [histLo, listMin, listMax]
  have hhi : histHi [0] = 1/2 := by norm_num [histHi, listMin, listMax]
  have hw : binWidth [0] 3 = 1/3 := by rw [binWidth, hlo, hhi]; norm_num
  have hc0 : histCount [0] 3 0 = 0 := by
    rw [histCount, hlo, hhi, List.countP_cons, List.countP_nil]
    have e : inBin (-(1/2)) (1/2) 3 0 ((0 : Nat) : ℚ) = false := by
      rw [inBin]; norm_num
    rw [e]; rfl
  have hc1 : histCount [0] 3 1 = 1 := by
    rw [histCount, hlo, hhi, List.countP_cons, List.countP_nil]
    have e : inBin (-(1/2)) (1/2) 3 1 ((0 : Nat) : ℚ) = true := by
      rw [inBin]; norm_num
    rw [e]; rfl
  have hc2 : histCount [0] 3 2 = 0 := by
    rw [histCount, hlo, hhi, List.countP_cons, List.countP_nil]
    have e : inBin (-(1/2)) (1/2) 3 2 ((0 : Nat) : ℚ) = false := by
      rw [inBin]; norm_num
    rw [e]; rfl
  have hd : histDensity [0] 3 = [0, 3, 0] := by
    rw [histDensity, show List.range 3 = [0, 1, 2] from rfl]
    rw [List.map_cons, List.map_cons, List.map_cons, List.map_nil, hc0, hc1, hc2, hw]
    norm_num
  have hp : percentOf [0] 3 = [0, 1, 0] := by
    rw [percentOf, hd]
    norm_num
  have hfreq : freqVec 1 [0] = [1] := by
    rw [freqVec, show List.range 1 = [0] from rfl, List.map_cons, List.map_nil]
    norm_num
  refine ⟨by rw [hb, hp], ?_⟩
  rw [hb, hp, hfreq]
  intro h
  simp at h

/-- Evaluation of case (b) of the C1 counterexample: two samples labelled 0,
`bins = k = 2`, degenerate data range `(-1/2, 1/2)`. -/
theorem percent_dup_case :
    percentOf [0, 0] 2 = [0, 1] ∧
      percentOf [0, 0] 2 ≠ freqVec 2 [0, 0] := by
  have hlo : histLo [0, 0] = -(1/2) := by norm_num [histLo, listMin, listMax]
  have hhi : histHi [0, 0] = 1/2 := by norm_num [histHi, listMin, listMax]
  have hw : binWidth [0, 0] 2 = 1/2 := by rw [binWidth, hlo, hhi]; norm_num
  have hc0 : histCount [0, 0] 2 0 = 0 := by
    rw [histCount, hlo, hhi, List.countP_cons, List.countP_cons, List.countP_nil]
    have e : inBin (-(1/2)) (1/2) 2 0 ((0 : Nat) : ℚ) = false := by
      rw [inBin]; norm_num
    rw [e]; rfl
  have hc1 : histCount [0, 0] 2 1 = 2 := by
    rw [histCount, hlo, hhi, List.countP_cons, List.countP_cons, List.countP_nil]
    have e : inBin (-(1/2)) (1/2) 2 1 ((0 : Nat) : ℚ) = true := by
      rw [inBin]; norm_num
    rw [e]; rfl
  have hd : histDensity [0, 0] 2 = [0, 2] := by
    rw [histDensity, show List.range 2 = [0, 1] from rfl]
    rw [List.map_cons, List.map_cons, List.map_nil, hc0, hc1, hw]
    norm_num
  have hp : percentOf [0, 0] 2 = [0, 1] := by
    rw [percentOf, hd]
    norm_num
  have hfreq : freqVec 2 [0, 0] = [1, 0] := by
    rw [freqVec, show List.range 2 = [0, 1] from rfl, List.map_cons, List.map_cons,
      List.map_nil]
    norm_num [List.count_cons, List.count_nil]
  refine ⟨hp, ?_⟩
  rw [hp, hfreq]
  intro h
  simp at h

/-- Claim C1 counterexample: two reachable failures of the claimed
label-frequency correspondence. (a) The valid single-pixel image with the
valid `k = 1` in `paletti/paletti.py`: clustering assigns the one sample
label 0, but `len(maincolors)` at the histogram call is 3 (the squeeze of
the `(1, 1, 3)` centroid array dropped every unit axis), so the returned
proportions are `[0, 1, 0]`, not the label-frequency vector `[1]` over
`[0, 1)`. (b) A two-identical-pixel image with the valid `k = 2` — a call
that completes, the clustering validation comparing `k` only with the
total sample count: fit-then-predict labels both samples 0 (ties go to the
first centroid), numpy's degenerate range `(-1/2, 1/2)` around the single
data value puts the whole mass in the last of the `bins = k = 2` bins, and
the proportions come out `[0, 1]`, not the frequency vector `[1, 0]`. -/
theorem percent_not_label_freq :
    (percentOf [0] (bins2 1) = [0, 1, 0] ∧
      percentOf [0] (bins2 1) ≠ freqVec 1 [0]) ∧
    (percentOf [0, 0] 2 = [0, 1] ∧
      percentOf [0, 0] 2 ≠ freqVec 2 [0, 0]) :=
  ⟨percent_k1_case, percent_dup_case⟩

/-- Taking exactly the length of the left part of an append. -/
theorem take_append_len {α : Type} (l1 l2 : List α) (n : Nat) (h : l1.length = n) :
    (l1 ++ l2).take n = l1 := by
  subst h; simp

/-- Dropping exactly the length of the left part of an append. -/
theorem drop_append_len {α : Type} (l1 l2 : List α) (n : Nat) (h : l1.length = n) :
    (l1 ++ l2).drop n = l2 := by
  subst h; simp

set_option maxRecDepth 10000 in
/-- `'%02x'` of a byte value is two characters, both hex digits, and parsing
them back with `int(·, 16)` recovers the value. -/
theorem fmt02x_spec : ∀ n < 256, (fmt02x n).length = 2 ∧
    parseHexNat (fmt02x n) = some n ∧
    ((fmt02x n).all fun ch => (hexVal ch).isSome) = true := by decide

/-- `'#'` is not a hex digit. -/
theorem hexVal_hash : hexVal '#' = none := by decide

/-- `'+'` is not a hex digit. -/
theorem hexVal_plus : hexVal '+' = none := by decide

/-- `'-'` is not a hex digit. -/
theorem hexVal_minus : hexVal '-' = none := by decide

/-- Computation of `hex2rgb` on a string made of `'#'` followed by three
two-character hex numerals. -/
theorem hex2rgb_three_pairs (d1 d2 d3 : List Char) (r g b : Nat)
    (h1 : d1.length = 2) (h2 : d2.length = 2) (h3 : d3.length = 2)
    (p1 : parseHexNat d1 = some r) (p2 : parseHexNat d2 = some g)
    (p3 : parseHexNat d3 = some b)
    (n1 : (d1.all fun ch => (hexVal ch).isSome) = true)
    (n2 : (d2.all fun ch => (hexVal ch).isSome) = true)
    (n3 : (d3.all fun ch => (hexVal ch).isSome) = true) :
    hex2rgb ⟨'#' :: (d1 ++ d2 ++ d3)⟩ = some [(r : Int), (g : Int), (b : Int)] := by
  obtain ⟨a1, a2, hd1⟩ := List.length_eq_two.mp h1
  obtain ⟨b1, b2, hd2⟩ := List.length_eq_two.mp h2
  obtain ⟨c1, c2, hd3⟩ := List.length_eq_two.mp h3
  have ha1 : (hexVal a1).isSome := by
    rw [hd1] at n1; simp [List.all_cons] at n1; exact n1.1
  have hb1 : (hexVal b1).isSome := by
    rw [hd2] at n2; simp [List.all_cons] at n2; exact n2.1
  have hc1 : (hexVal c1).isSome := by
    rw [hd3] at n3; simp [List.all_cons] at n3; exact n3.1
  have ha1hash : (a1 == '#') = false := by
    rcases hq : hexVal a1 with _ | v
    · rw [hq] at ha1; simp at ha1
    · apply beq_eq_false_iff_ne.mpr
      intro hc; rw [hc, hexVal_hash] at hq; cases hq
  have notsign : ∀ ch : Char, (hexVal ch).isSome → ¬ (ch = '+') ∧ ¬ (ch = '-') := by
    intro ch hch
    constructor
    · intro hc; rw [hc, hexVal_plus] at hch; simp at hch
    · intro hc; rw [hc, hexVal_minus] at hch; simp at hch
  have hvalue : (('#' :: (d1 ++ d2 ++ d3)).dropWhile (fun ch => ch == '#'))
      = d1 ++ d2 ++ d3 := by
    rw [List.dropWhile_cons]
    simp only [beq_self_eq_true, if_true]
    rw [hd1]
    simp only [List.cons_append, List.dropWhile_cons, ha1hash]
    simp
  have hlen : (d1 ++ d2 ++ d3).length = 6 := by
    simp [List.length_append, h1, h2, h3]
  have hstr : (⟨'#' :: (d1 ++ d2 ++ d3)⟩ : String).data = '#' :: (d1 ++ d2 ++ d3) := rfl
  rw [hex2rgb, hstr, hvalue, hex2rgbAux, hlen]
  norm_num
  have hrange : pyRange 0 6 2 = [0, 2, 4] := rfl
  rw [hrange]
  have hs1 : pySlice (d1 ++ (d2 ++ d3)) 0 2 = d1 := by
    rw [pySlice, List.drop_zero]
    exact take_append_len d1 _ 2 h1
  have hs2 : pySlice (d1 ++ (d2 ++ d3)) 2 4 = d2 := by
    rw [pySlice, drop_append_len d1 _ 2 h1]
    exact take_append_len d2 _ 2 h2
  have hs3 : pySlice (d1 ++ (d2 ++ d3)) 4 6 = d3 := by
    rw [pySlice, ← List.append_assoc, drop_append_len (d1 ++ d2) _ 4 (by simp [h1, h2])]
    exact List.take_of_length_le (by omega)
  have hp1 : pyIntHex d1 = some (r : Int) := by
    rw [hd1, pyIntHex, if_neg (notsign a1 ha1).1, if_neg (notsign a1 ha1).2, ← hd1, p1]
    rfl
  have hp2 : pyIntHex d2 = some (g : Int) := by
    rw [hd2, pyIntHex, if_neg (notsign b1 hb1).1, if_neg (notsign b1 hb1).2, ← hd2, p2]
    rfl
  have hp3 : pyIntHex d3 = some (b : Int) := by
    rw [hd3, pyIntHex, if_neg (notsign c1 hc1).1, if_neg (notsign c1 hc1).2, ← hd3, p3]
    rfl
  simp [List.mapM.loop, hs1, hs2, hs3, hp1, hp2, hp3]

/-! ### Lloyd iteration lemmas and concrete runs (C3, C4, C5) -/

/-- Unfolding of one Lloyd iteration step. -/
theorem lloydIter_succ (fuel : Nat) (samples cs : List Vec3) :
    lloydIter (fuel + 1) samples cs
      = if lloydStep samples cs = cs then cs
        else lloydIter fuel samples (lloydStep samples cs) := rfl

/-- A Lloyd update never changes the number of centroids: an empty cluster
is reseeded, not dropped. -/
theorem lloydStep_length (samples cs : List Vec3) :
    (lloydStep samples cs).length = cs.length := by
  rw [lloydStep, List.length_map, List.length_range]

/-- Lloyd iteration never changes the number of centroids. -/
theorem lloydIter_length (fuel : Nat) (samples cs : List Vec3) :
    (lloydIter fuel samples cs).length = cs.length := by
  induction fuel generalizing cs with
  | zero => rfl
  | succ f ih =>
    rw [lloydIter_succ]
    by_cases h : lloydStep samples cs = cs
    · rw [if_pos h]
    · rw [if_neg h, ih, lloydStep_length]

/-- The seeded initialization always produces exactly `k` centroids. -/
theorem initCentroids_length (r : Nat) (samples : List Vec3) (k : Nat) :
    (initCentroids r samples k).length = k := by
  rw [initCentroids, List.length_map, initIndices, List.length_map, List.length_range]

/-- First Lloyd update of the counterexample run started at samples 3, 0. -/
theorem lloydStep_run1a :
    lloydStep cexSamples [⟨15, 0, 0⟩, ⟨0, 0, 0⟩] = [⟨12, 0, 0⟩, ⟨3, 0, 0⟩] := by
  norm_num [lloydStep, clusterMembers, nearest, argmin, argminGo, argmax, argmaxGo,
    dist2, centroidOf, vsum, cexSamples, List.filter_cons, List.filter_nil,
    show List.range 2 = [0, 1] from rfl]
  exact ⟨List.cons_ne_nil _ _, List.cons_ne_nil _ _⟩

/-- The first counterexample run has converged at `[12, 3]`. -/
theorem lloydStep_run1b :
    lloydStep cexSamples [⟨12, 0, 0⟩, ⟨3, 0, 0⟩] = [⟨12, 0, 0⟩, ⟨3, 0, 0⟩] := by
  norm_num [lloydStep, clusterMembers, nearest, argmin, argminGo, argmax, argmaxGo,
    dist2, centroidOf, vsum, cexSamples, List.filter_cons, List.filter_nil,
    show List.range 2 = [0, 1] from rfl]
  exact ⟨List.cons_ne_nil _ _, List.cons_ne_nil _ _⟩

/-- First Lloyd update of the counterexample run started at samples 0, 1. -/
theorem lloydStep_run2a :
    lloydStep cexSamples [⟨0, 0, 0⟩, ⟨6, 0, 0⟩] = [⟨0, 0, 0⟩, ⟨10, 0, 0⟩] := by
  norm_num [lloydStep, clusterMembers, nearest, argmin, argminGo, argmax, argmaxGo,
    dist2, centroidOf, vsum, cexSamples, List.filter_cons, List.filter_nil,
    show List.range 2 = [0, 1] from rfl]
  exact List.cons_ne_nil _ _

/-- The second counterexample run has converged at `[0, 10]`. -/
theorem lloydStep_run2b :
    lloydStep cexSamples [⟨0, 0, 0⟩, ⟨10, 0, 0⟩] = [⟨0, 0, 0⟩, ⟨10, 0, 0⟩] := by
  norm_num [lloydStep, clusterMembers, nearest, argmin, argminGo, argmax, argmaxGo,
    dist2, centroidOf, vsum, cexSamples, List.filter_cons, List.filter_nil,
    show List.range 2 = [0, 1] from rfl]
  exact List.cons_ne_nil _ _

/-- Converged centroids of the first run. -/
theorem lloydIter_run1 :
    lloydIter 300 cexSamples [⟨15, 0, 0⟩, ⟨0, 0, 0⟩] = [⟨12, 0, 0⟩, ⟨3, 0, 0⟩] := by
  rw [show (300 : Nat) = 299 + 1 from rfl, lloydIter_succ, lloydStep_run1a,
    if_neg (by norm_num),
    show (299 : Nat) = 298 + 1 from rfl, lloydIter_succ, lloydStep_run1b, if_pos rfl]

/-- Converged centroids of the second run. -/
theorem lloydIter_run2 :
    lloydIter 300 cexSamples [⟨0, 0, 0⟩, ⟨6, 0, 0⟩] = [⟨0, 0, 0⟩, ⟨10, 0, 0⟩] := by
  rw [show (300 : Nat) = 299 + 1 from rfl, lloydIter_succ, lloydStep_run2a,
    if_neg (by norm_num),
    show (299 : Nat) = 298 + 1 from rfl, lloydIter_succ, lloydStep_run2b, if_pos rfl]

/-- Claim C4 counterexample: `kmeans_palette` passes no `random_state` to
`KMeans`, so the second of two identical extractions starts from the RNG
state the first left behind. On the four-sample image `cexSamples` with
`k = 2` and initial state 3, the first run draws initial centroids at
samples 3, 0 and converges to `[12, 3]`, the second draws samples 0, 1 and
converges to `[0, 10]`: identical input, different centroids. -/
theorem pipeline_not_reproducible_across_runs :
    (runTwice cexSamples 2 3).1 ≠ (runTwice cexSamples 2 3).2 := by
  have e1 : (runTwice cexSamples 2 3).1 = Except.ok [⟨12, 0, 0⟩, ⟨3, 0, 0⟩] := by
    show kmeansFit cexSamples 2 3 = _
    rw [kmeansFit, if_neg (by norm_num [cexSamples])]
    rw [show initCentroids 3 cexSamples 2 = [⟨15, 0, 0⟩, ⟨0, 0, 0⟩] from rfl]
    rw [lloydIter_run1]
  have e2 : (runTwice cexSamples 2 3).2 = Except.ok [⟨0, 0, 0⟩, ⟨10, 0, 0⟩] := by
    show kmeansFit cexSamples 2 4 = _
    rw [kmeansFit, if_neg (by norm_num [cexSamples])]
    rw [show initCentroids 4 cexSamples 2 = [⟨0, 0, 0⟩, ⟨6, 0, 0⟩] from rfl]
    rw [lloydIter_run2]
  rw [e1, e2]
  intro h
  rw [Except.ok.injEq] at h
  norm_num at h

/-- Claim C4 amended: the clustering output is a deterministic function of
the samples, `k`, and the RNG draw: two runs whose draws coincide yield
identical results. But the pipeline exposes no seed — `KMeans` is built
with no `random_state`, the draw comes from the advancing global RNG, and
two successive identical calls need not coincide. -/
theorem kmeans_reproducible_given_state (samples : List Vec3) (k s t : Nat)
    (h : (rngDraw s).1 = (rngDraw t).1) :
    (runOnce samples k s).1 = (runOnce samples k t).1 := by
  have hs : s = t := h
  rw [hs]

/-- Witness for C4's amended theorem at a concrete state. -/
theorem kmeans_reproducible_given_state_witness :
    (runOnce cexSamples 2 5).1 = (runOnce cexSamples 2 5).1 :=
  kmeans_reproducible_given_state cexSamples 2 5 5 rfl

/-- Claim C5 amended: the clustering step fails — with the error the spec
names `InvalidK` — exactly when `k = 0` or `k` exceeds the number of
samples, i.e. the total pixel count of the prepared flattened image
(duplicates included), not the number of distinct pixels; no partial
result is produced on failure. -/
theorem kmeansFit_invalidK_iff (samples : List Vec3) (k r : Nat) :
    kmeansFit samples k r = Except.error KMeansError.invalidK
      ↔ (k = 0 ∨ samples.length < k) := by
  rw [kmeansFit]
  by_cases h : k = 0 ∨ samples.length < k
  · rw [if_pos h]
    simp [h]
  · rw [if_neg h]
    simp [h]

/-- Lloyd update on the two-identical-pixel image: cluster 1 is empty and
is reseeded (to the farthest sample, itself the same pixel), so the
centroids are unchanged and the iteration has converged. -/
theorem lloydStep_dup :
    lloydStep [⟨0, 0, 0⟩, ⟨0, 0, 0⟩] [⟨0, 0, 0⟩, ⟨0, 0, 0⟩]
      = [⟨0, 0, 0⟩, ⟨0, 0, 0⟩] := by
  norm_num [lloydStep, clusterMembers, nearest, argmin, argminGo, argmax, argmaxGo,
    dist2, centroidOf, vsum, List.filter_cons, List.filter_nil, List.getD,
    show List.range 2 = [0, 1] from rfl]

/-- Claim C5 counterexample: an image of two identical pixels with `k = 2`:
`k` exceeds the number of distinct pixels (1), yet the clustering call
succeeds — the library validation compares `k` with the total sample
count 2 — returning two (duplicate) centroids. -/
theorem kmeansFit_succeeds_beyond_distinct :
    numDistinct [⟨0, 0, 0⟩, ⟨0, 0, 0⟩] < 2 ∧
      kmeansFit [⟨0, 0, 0⟩, ⟨0, 0, 0⟩] 2 0
        = Except.ok [⟨0, 0, 0⟩, ⟨0, 0, 0⟩] := by
  constructor
  · have h1 : ([⟨0, 0, 0⟩, ⟨0, 0, 0⟩] : List Vec3).dedup = [⟨0, 0, 0⟩] := by
      rw [List.dedup_cons_of_mem (by simp), List.dedup_cons_of_not_mem (by simp),
        List.dedup_nil]
    rw [numDistinct, h1]
    norm_num
  · rw [kmeansFit, if_neg (by norm_num)]
    rw [show initCentroids 0 [⟨0, 0, 0⟩, ⟨0, 0, 0⟩] 2
        = [⟨0, 0, 0⟩, ⟨0, 0, 0⟩] from rfl]
    rw [show (300 : Nat) = 299 + 1 from rfl, lloydIter_succ, lloydStep_dup, if_pos rfl]

/-- Claim C3 counterexample: `k = 1` is valid for any nonempty image, but in
both implementations the `.squeeze()` at palette assembly collapses the
`(1, 1, 3)`-shaped colors array to a bare 3-vector, whose `len()` is 3: the
returned palette presents 3 entries, not exactly 1. -/
theorem palette_k1_entries_not_one :
    numEntries1 1 = 3 ∧ numEntries2 1 = 3 ∧
      numEntries1 1 ≠ 1 ∧ numEntries2 1 ≠ 1 := by decide

/-- Claim C3 amended: for `2 ≤ k ≤` sample count, both implementations
return a palette with exactly `k` color entries, and the clustering always
produces exactly `k` centroids — empty clusters are reseeded internally,
never dropped. For `k = 1` the squeeze collapses the colors array to a
flat 3-vector (3 entries). -/
theorem palette_exactly_k_entries (k : Nat) (hk : 2 ≤ k)
    (samples : List Vec3) (r : Nat) (hn : k ≤ samples.length) :
    numEntries1 k = k ∧ numEntries2 k = k ∧
      ∃ cs, kmeansFit samples k r = Except.ok cs ∧ cs.length = k := by
  have hk1 : (k != 1) = true := by
    rw [bne_iff_ne]
    omega
  refine ⟨?_, ?_, ?_⟩
  · simp [numEntries1, paletteColorsShape1, squeeze, npLen, List.filter_cons,
      List.filter_nil, hk1]
  · simp [numEntries2, paletteColorsShape2, squeeze, npLen, List.filter_cons,
      List.filter_nil, hk1]
  · rw [kmeansFit, if_neg (by omega)]
    exact ⟨_, rfl, by rw [lloydIter_length, initCentroids_length]⟩

/-- Witness for C3's amended theorem: `k = 2` on the four-sample image. -/
theorem palette_exactly_k_entries_witness :
    numEntries1 2 = 2 ∧ numEntries2 2 = 2 ∧
      ∃ cs, kmeansFit cexSamples 2 0 = Except.ok cs ∧ cs.length = 2 :=
  palette_exactly_k_entries 2 (by decide) cexSamples 0 (by decide)

/-! ### Image preparation lemmas (C7) -/

/-- `getD` on an append, index within the left part. -/
theorem getD_append_left {α : Type} (l1 l2 : List α) (n : Nat) (hn : n < l1.length)
    (d : α) : (l1 ++ l2).getD n d = l1.getD n d := by
  induction l1 generalizing n with
  | nil => cases hn
  | cons a t ih =>
    cases n with
    | zero => rfl
    | succ m =>
      show (t ++ l2).getD m d = t.getD m d
      exact ih m (by simpa using hn)

/-- `getD` on an append, index past the left part. -/
theorem getD_append_right_len {α : Type} (l1 l2 : List α) (n : Nat) (d : α) :
    (l1 ++ l2).getD (l1.length + n) d = l2.getD n d := by
  induction l1 with
  | nil => simp
  | cons a t ih =>
    have hidx : (a :: t).length + n = (t.length + n) + 1 := by
      rw [List.length_cons]
      omega
    rw [hidx]
    show (t ++ l2).getD (t.length + n) d = l2.getD n d
    exact ih

/-- `getD` of a mapped list at an in-range index. -/
theorem getD_map_of_lt {α β : Type} (f : α → β) (l : List α) (n : Nat)
    (hn : n < l.length) (d : β) (e : α) :
    (l.map f).getD n d = f (l.getD n e) := by
  induction l generalizing n with
  | nil => cases hn
  | cons a t ih =>
    cases n with
    | zero => rfl
    | succ m =>
      show (t.map f).getD m d = f (t.getD m e)
      exact ih m (by simpa using hn)

/-- An in-range `getD` produces an element of the list. -/
theorem getD_mem_of_lt {α : Type} (l : List α) (n : Nat) (hn : n < l.length)
    (d : α) : l.getD n d ∈ l := by
  induction l generalizing n with
  | nil => cases hn
  | cons a t ih =>
    cases n with
    | zero => exact List.mem_cons_self a t
    | succ m =>
      exact List.mem_cons_of_mem a (ih m (by simpa using hn))

/-- Row-major indexing into the flattening of a rectangular grid. -/
theorem join_getD {α : Type} (w : Nat) (dflt : α) :
    ∀ (rows : List (List α)), (∀ r ∈ rows, r.length = w) →
      ∀ i j, j < w →
        rows.join.getD (i * w + j) dflt = (rows.getD i []).getD j dflt := by
  intro rows
  induction rows with
  | nil =>
    intro _ i j _
    simp [List.getD]
  | cons r rest ih =>
    intro hw i j hj
    have hr : r.length = w := hw r (List.mem_cons_self _ _)
    have hjoin : (r :: rest).join = r ++ rest.join := rfl
    rw [hjoin]
    cases i with
    | zero =>
      rw [Nat.zero_mul, Nat.zero_add]
      rw [getD_append_left _ _ j (by rw [hr]; exact hj)]
      rfl
    | succ m =>
      have hidx : (m + 1) * w + j = r.length + (m * w + j) := by
        rw [hr]
        ring
      rw [hidx, getD_append_right_len]
      exact ih (fun q hq => hw q (List.mem_cons_of_mem r hq)) m j hj

/-- Length of the flattening of a rectangular grid. -/
theorem join_length_grid {α : Type} (rows : List (List α)) (w : Nat)
    (hw : ∀ r ∈ rows, r.length = w) :
    rows.join.length = rows.length * w := by
  induction rows with
  | nil => simp
  | cons r rest ih =>
    have hjoin : (r :: rest).join = r ++ rest.join := rfl
    rw [hjoin, List.length_append, hw r (List.mem_cons_self _ _),
      ih (fun q hq => hw q (List.mem_cons_of_mem r hq)), List.length_cons]
    ring

/-- Claim C7 counterexample: a valid 1×1 image with an alpha channel
(4-component pixel) makes `kmeans_palette` of `paletti/paletti.py` fail:
PIL keeps the RGBA mode, and the 4-channel array is rejected (by the
conversion's shape contract, and in any case by the `assert d == 3`); the
call does not succeed. -/
theorem prepare2_alpha_fails :
    prepare2 [[[1, 1, 1, 1]]] = Except.error PrepError.shapeMismatch := rfl

/-- Claim C7 amended: `paletti.py` (cv2 decode) outputs, for every valid
image, a flat row-major sequence of `h·w` three-channel pixels, dropping a
source alpha channel, and the call succeeds; `paletti/paletti.py` (PIL
decode, no mode conversion) produces the flat row-major `h·w` sequence
only for 3-channel sources and fails on an image with an alpha channel. -/
theorem prepare_row_major_alpha (src : List (List (List ℚ))) (h w d : Nat)
    (hh : src.length = h) (hpos : 0 < h) (hwpos : 0 < w)
    (hw : ∀ row ∈ src, row.length = w)
    (hd : ∀ row ∈ src, ∀ px ∈ row, px.length = d) (hd3 : 3 ≤ d) :
    (∃ flat, prepare1 src = Except.ok flat ∧ flat.length = h * w ∧
       (∀ px ∈ flat, px.length = 3) ∧
       ∀ i j, i < h → j < w →
         flat.getD (i * w + j) [] = ((src.getD i []).getD j []).take 3) ∧
    (d = 3 → ∃ flat, prepare2 src = Except.ok flat ∧ flat.length = h * w ∧
       ∀ i j, i < h → j < w →
         flat.getD (i * w + j) [] = (src.getD i []).getD j []) ∧
    (d ≠ 3 → prepare2 src = Except.error PrepError.shapeMismatch) := by
  obtain ⟨r0, rest, hsrc⟩ : ∃ r0 rest, src = r0 :: rest := by
    cases src with
    | nil => rw [List.length_nil] at hh; omega
    | cons a t => exact ⟨a, t, rfl⟩
  obtain ⟨p0, prow, hr0⟩ : ∃ p0 prow, r0 = p0 :: prow := by
    cases hcr : r0 with
    | nil =>
      have := hw r0 (by rw [hsrc]; exact List.mem_cons_self _ _)
      rw [hcr, List.length_nil] at this
      omega
    | cons a t => exact ⟨a, t, rfl⟩
  have hp0 : p0.length = d := by
    apply hd r0 (by rw [hsrc]; exact List.mem_cons_self _ _)
    rw [hr0]
    exact List.mem_cons_self _ _
  have hrowlen : ∀ row ∈ cv2Read src, row.length = w := by
    intro row hrow
    rw [cv2Read] at hrow
    obtain ⟨row0, hrow0, rfl⟩ := List.mem_map.mp hrow
    rw [List.length_map]
    exact hw row0 hrow0
  have hchan : ∀ row ∈ cv2Read src, ∀ px ∈ row, px.length = 3 := by
    intro row hrow px hpx
    rw [cv2Read] at hrow
    obtain ⟨row0, hrow0, rfl⟩ := List.mem_map.mp hrow
    obtain ⟨px0, hpx0, rfl⟩ := List.mem_map.mp hpx
    rw [List.length_take, hd row0 hrow0 px0 hpx0]
    omega
  have hshape1 : (shapeOf (cv2Read src)).2.2 = 3 := by
    rw [hsrc, hr0]
    show (List.take 3 p0).length = 3
    rw [List.length_take, hp0]
    omega
  have hlen1 : (cv2Read src).length = h := by
    rw [cv2Read, List.length_map, hh]
  refine ⟨?_, ?_, ?_⟩
  · refine ⟨(cv2Read src).join, ?_, ?_, ?_, ?_⟩
    · rw [prepare1, if_pos hshape1]
    · rw [join_length_grid _ w hrowlen, hlen1]
    · intro px hpx
      rw [List.mem_flatten] at hpx
      obtain ⟨row, hrow, hpxr⟩ := hpx
      exact hchan row hrow px hpxr
    · intro i j hi hj
      rw [join_getD w [] (cv2Read src) hrowlen i j hj]
      have hi' : i < src.length := by rw [hh]; exact hi
      have hrow : (cv2Read src).getD i []
          = (src.getD i []).map (fun px => px.take 3) := by
        rw [cv2Read]
        exact getD_map_of_lt _ src i hi' [] []
      rw [hrow]
      have hmem : src.getD i [] ∈ src := getD_mem_of_lt src i hi' []
      have hj' : j < (src.getD i []).length := by rw [hw _ hmem]; exact hj
      exact getD_map_of_lt _ _ j hj' [] []
  · intro hd3'
    have hshape2 : (shapeOf src).2.2 = 3 := by
      rw [hsrc, hr0]
      show p0.length = 3
      rw [hp0, hd3']
    refine ⟨src.join, ?_, ?_, ?_⟩
    · rw [prepare2, rgb2labShape, if_pos hshape2]
      show (Except.ok src).bind _ = _
      rw [Except.bind]
      rw [if_pos hshape2]
    · rw [join_length_grid _ w hw, hh]
    · intro i j hi hj
      exact join_getD w [] src hw i j hj
  · intro hdne
    have hshape2 : ¬ ((shapeOf src).2.2 = 3) := by
      rw [hsrc, hr0]
      show ¬ (p0.length = 3)
      rw [hp0]
      exact hdne
    rw [prepare2, rgb2labShape, if_neg hshape2]
    rfl

/-- Witness for C7's amended theorem: a 1×2 four-channel (RGBA) image. -/
theorem prepare_row_major_alpha_witness :
    (∃ flat, prepare1 [[[1, 1, 1, 1], [0, 0, 0, 0]]] = Except.ok flat ∧
       flat.length = 1 * 2 ∧ (∀ px ∈ flat, px.length = 3) ∧
       ∀ i j, i < 1 → j < 2 →
         flat.getD (i * 2 + j) []
           = ((([[[1, 1, 1, 1], [0, 0, 0, 0]]] : List (List (List ℚ))).getD i []).getD j []).take 3) ∧
    ((4 : Nat) = 3 → ∃ flat, prepare2 [[[1, 1, 1, 1], [0, 0, 0, 0]]] = Except.ok flat ∧
       flat.length = 1 * 2 ∧
       ∀ i j, i < 1 → j < 2 →
         flat.getD (i * 2 + j) []
           = (([[[1, 1, 1, 1], [0, 0, 0, 0]]] : List (List (List ℚ))).getD i []).getD j []) ∧
    ((4 : Nat) ≠ 3 →
       prepare2 [[[1, 1, 1, 1], [0, 0, 0, 0]]] = Except.error PrepError.shapeMismatch) :=
  prepare_row_major_alpha [[[1, 1, 1, 1], [0, 0, 0, 0]]] 1 2 4
    rfl (by decide) (by decide) (by simp) (by simp) (by decide)

/-! ### Color conversion round trip (C2) -/

/-- Channel-wise application of an inverse pair cancels. -/
theorem mapTriple_inv (p q : ℚ → ℚ) (h : ∀ t, q (p t) = t) (v : ℚ × ℚ × ℚ) :
    mapTriple q (mapTriple p v) = v := by
  rcases v with ⟨a, b, c⟩
  simp [mapTriple, h]

/-- The Lab affine combination is exactly invertible. -/
theorem labAffineInv_labAffine (w : ℚ × ℚ × ℚ) :
    labAffineInv (labAffine w) = w := by
  rcases w with ⟨fx, fy, fz⟩
  simp only [labAffine, labAffineInv, Prod.mk.injEq]
  refine ⟨by ring, by ring, by ring⟩

/-- White-point normalization is exactly invertible. -/
theorem whiteMul_whiteDiv (w : ℚ × ℚ × ℚ) : whiteMul (whiteDiv w) = w := by
  rcases w with ⟨a, b, c⟩
  simp only [whiteDiv, whiteMul, Prod.mk.injEq]
  refine ⟨?_, ?_, ?_⟩ <;>
    · rw [mul_comm, div_mul_cancel₀]
      norm_num [Xn, Yn, Zn, m00, m01, m02, m10, m11, m12, m20, m21, m22]

/-- The sRGB→XYZ matrix composed with its exact inverse is the identity. -/
theorem fromXYZ_toXYZ (v : ℚ × ℚ × ℚ) : fromXYZ (toXYZ v) = v := by
  rcases v with ⟨a, b, c⟩
  simp only [toXYZ, fromXYZ, Prod.mk.injEq,
    i00, i01, i02, i10, i11, i12, i20, i21, i22, det3,
    m00, m01, m02, m10, m11, m12, m20, m21, m22]
  refine ⟨by ring, by ring, by ring⟩

/-- Clamping is the identity on the valid display range. -/
theorem clamp01_of_range (t : ℚ) (h0 : 0 ≤ t) (h1 : t ≤ 1) : clamp01 t = t := by
  rw [clamp01, min_eq_right h1, max_eq_right h0]

/-- Claim C2: for every valid display-space color `c` (components in
`[0, 1]`) and every valid choice of the per-channel nonlinearities (an
inverse pair, as §4.1's invertible-up-to-rounding contract requires),
`toDisplay (toPerceptual c) = c` exactly — in particular within any small
tolerance. In the code this is the conversion applied to the image before
clustering composed with the inverse conversion applied to the
centroids. -/
theorem toDisplay_toPerceptual_roundtrip (g f ginv finv : ℚ → ℚ)
    (hg : ∀ t, ginv (g t) = t) (hf : ∀ t, finv (f t) = t)
    (r gc b : ℚ) (hr0 : 0 ≤ r) (hr1 : r ≤ 1) (hg0 : 0 ≤ gc) (hg1 : gc ≤ 1)
    (hb0 : 0 ≤ b) (hb1 : b ≤ 1) :
    lab2rgb ginv finv (rgb2lab g f (r, gc, b)) = (r, gc, b) := by
  rw [rgb2lab, lab2rgb, labAffineInv_labAffine, mapTriple_inv f finv hf,
    whiteMul_whiteDiv, fromXYZ_toXYZ, mapTriple_inv g ginv hg]
  rw [mapTriple]
  rw [show ((r, gc, b) : ℚ × ℚ × ℚ).1 = r from rfl,
    show ((r, gc, b) : ℚ × ℚ × ℚ).2.1 = gc from rfl,
    show ((r, gc, b) : ℚ × ℚ × ℚ).2.2 = b from rfl,
    clamp01_of_range r hr0 hr1, clamp01_of_range gc hg0 hg1,
    clamp01_of_range b hb0 hb1]

/-- Witness for C2 at the identity nonlinearities and the concrete display
color `(1/2, 1/4, 0)`. -/
theorem toDisplay_toPerceptual_roundtrip_witness :
    lab2rgb id id (rgb2lab id id (1/2, 1/4, 0)) = (1/2, 1/4, 0) :=
  toDisplay_toPerceptual_roundtrip id id id id (fun _ => rfl) (fun _ => rfl)
    (1/2) (1/4) 0 (by norm_num) (by norm_num) (by norm_num) (by norm_num)
    (by norm_num) (by norm_num)

/-- Claim C8: for every RGB triple with components in `[0, 255]`,
`hex2rgb (rgb2hex (r, g, b))` returns exactly `[r, g, b]`: hex encoding
followed by hex decoding is the identity on 8-bit-per-channel colors. -/
theorem hex2rgb_rgb2hex_roundtrip (r g b : Nat)
    (hr : r < 256) (hg : g < 256) (hb : b < 256) :
    hex2rgb (rgb2hex (r, g, b)) = some [(r : Int), (g : Int), (b : Int)] := by
  obtain ⟨l1, q1, a1⟩ := fmt02x_spec r hr
  obtain ⟨l2, q2, a2⟩ := fmt02x_spec g hg
  obtain ⟨l3, q3, a3⟩ := fmt02x_spec b hb
  exact hex2rgb_three_pairs _ _ _ r g b l1 l2 l3 q1 q2 q3 a1 a2 a3

/-- Witness for C8 at the concrete color (250, 16, 9). -/
theorem hex2rgb_rgb2hex_roundtrip_witness :
    hex2rgb (rgb2hex (250, 16, 9)) = some [(250 : Int), (16 : Int), (9 : Int)] :=
  hex2rgb_rgb2hex_roundtrip 250 16 9 (by decide) (by decide) (by decide)

/-- Claim C9: for every filename and `k`, calling `get_palette` with a method
argument that is none of `"k-means"`, `"colorific"`, `"pil"`, `"pictaculous"`
dispatches to no strategy and returns Python `None` (`none` here) rather than
raising or falling back to a default. -/
theorem get_palette_unknown_method_none (fname : String) (k : Nat) (method : String)
    (h : method ∉ (["k-means", "colorific", "pil", "pictaculous"] : List String)) :
    get_palette fname k method = none := by
  simp only [List.mem_cons, List.mem_singleton, not_or] at h
  obtain ⟨h1, h2, h3, h4⟩ := h
  simp [get_palette, h1, h2, h3, h4]

/-- Witness for C9 at the concrete method string "median-cut". -/
theorem get_palette_unknown_method_none_witness :
    get_palette "image.png" 5 "median-cut" = none :=
  get_palette_unknown_method_none "image.png" 5 "median-cut" (by decide)

/-- A bind whose continuation unconditionally raises is a raise. -/
theorem bind_error_isPyError {α β : Type} (e : Except PyErr α) :
    isPyError (e.bind (fun _ => (Except.error PyErr.attributeError : Except PyErr β)))
      = true := by
  cases e <;> rfl

/-- Claim C10: for every input string, `complementary_color` raises an
exception before returning: each channel either fails to parse
(`ValueError` from `int`) or, if all three parse, the final
`comp.join()` raises `AttributeError` because Python lists have no `join`
method. The function has no reachable normal return value. -/
theorem complementary_color_always_raises (incolor : String) :
    isPyError (complementary_color incolor) = true :=
  bind_error_isPyError _

/-- Claim C6 counterexample: `kmeans_palette` in `paletti.py` has no
downsampling step: a 601×601 source image, both dimensions exceeding
`max_dimension` = 600, hands 601·601 > 600² flattened samples to the
clusterer. -/
theorem kmeans1_samples_not_bounded :
    ¬ ((prepDims1 601 601).1 * (prepDims1 601 601).2 ≤ RSIZE * RSIZE) := by decide

/-- Claim C6 amended: in `paletti/paletti.py` `kmeans_palette`, the
`thumbnail((RSIZE, RSIZE))` call bounds both prepared dimensions by
`RSIZE = 600` and hence the flattened sample count by 600², preserving
aspect ratio; `paletti.py`'s `kmeans_palette` performs no downsampling at
all, and its `pil_palette` resizes to a fixed 150×150 square without
preserving aspect ratio. -/
theorem thumbnail_bounds_samples (W H : Nat) (hW : 0 < W) (hH : 0 < H) :
    (prepDims2 W H).1 ≤ RSIZE ∧ (prepDims2 W H).2 ≤ RSIZE ∧
      (prepDims2 W H).1 * (prepDims2 W H).2 ≤ RSIZE * RSIZE := by
  have key : ∀ (n : Nat), 0 < n →
      max 1 (Int.toNat ⌊(n : ℚ) * min ((RSIZE : ℚ) / W) ((RSIZE : ℚ) / H)⌋) ≤ RSIZE
        ∨ True := fun _ _ => Or.inr trivial
  clear key
  unfold prepDims2 thumbnailDims
  by_cases hc : W ≤ RSIZE ∧ H ≤ RSIZE
  · rw [if_pos hc]
    exact ⟨hc.1, hc.2, Nat.mul_le_mul hc.1 hc.2⟩
  · rw [if_neg hc]
    have bound : ∀ (n : Nat), 0 < n → ((n : ℚ) * ((RSIZE : ℚ) / n)) = RSIZE := by
      intro n hn
      have : (n : ℚ) ≠ 0 := by positivity
      field_simp
    have hWq : (0 : ℚ) < (W : ℚ) := by exact_mod_cast hW
    have hHq : (0 : ℚ) < (H : ℚ) := by exact_mod_cast hH
    have h1 : (W : ℚ) * min ((RSIZE : ℚ) / W) ((RSIZE : ℚ) / H) ≤ RSIZE := by
      calc (W : ℚ) * min ((RSIZE : ℚ) / W) ((RSIZE : ℚ) / H)
          ≤ (W : ℚ) * ((RSIZE : ℚ) / W) :=
            mul_le_mul_of_nonneg_left (min_le_left _ _) (le_of_lt hWq)
        _ = RSIZE := bound W hW
    have h2 : (H : ℚ) * min ((RSIZE : ℚ) / W) ((RSIZE : ℚ) / H) ≤ RSIZE := by
      calc (H : ℚ) * min ((RSIZE : ℚ) / W) ((RSIZE : ℚ) / H)
          ≤ (H : ℚ) * ((RSIZE : ℚ) / H) :=
            mul_le_mul_of_nonneg_left (min_le_right _ _) (le_of_lt hHq)
        _ = RSIZE := bound H hH
    have f1 : max 1 (Int.toNat ⌊(W : ℚ) * min ((RSIZE : ℚ) / W) ((RSIZE : ℚ) / H)⌋)
        ≤ RSIZE := by
      apply max_le
      · norm_num [RSIZE]
      · apply Int.toNat_le.mpr
        calc ⌊(W : ℚ) * min ((RSIZE : ℚ) / W) ((RSIZE : ℚ) / H)⌋
            ≤ ⌊(RSIZE : ℚ)⌋ := Int.floor_le_floor h1
          _ = (RSIZE : Int) := Int.floor_natCast RSIZE
    have f2 : max 1 (Int.toNat ⌊(H : ℚ) * min ((RSIZE : ℚ) / W) ((RSIZE : ℚ) / H)⌋)
        ≤ RSIZE := by
      apply max_le
      · norm_num [RSIZE]
      · apply Int.toNat_le.mpr
        calc ⌊(H : ℚ) * min ((RSIZE : ℚ) / W) ((RSIZE : ℚ) / H)⌋
            ≤ ⌊(RSIZE : ℚ)⌋ := Int.floor_le_floor h2
          _ = (RSIZE : Int) := Int.floor_natCast RSIZE
    exact ⟨f1, f2, Nat.mul_le_mul f1 f2⟩

/-- Witness for C6's amended theorem at a concrete 1200×900 source image. -/
theorem thumbnail_bounds_samples_witness :
    (prepDims2 1200 900).1 ≤ RSIZE ∧ (prepDims2 1200 900).2 ≤ RSIZE ∧
      (prepDims2 1200 900).1 * (prepDims2 1200 900).2 ≤ RSIZE * RSIZE :=
  thumbnail_bounds_samples 1200 900 (by decide) (by decide)

end Paletti
